import Mathlib

/-!
# Verification of the pyre cost-basis ledger, backfill and sync orchestrator

A shallow embedding of the core of the `samcm/pyre` repository:

* the backfill ledger pass (`internal/backfill/backfill.go`:
  `BackfillUser`, `calculateRealizedPnlFIFO`, `createSnapshots`),
* the live-stats ledger pass (`internal/storage`:
  `CalculateRealizedPnlFromTrades`),
* the aggregate-stats query (`internal/storage`: `GetUserStats`),
* the snapshot replacement path (`DeleteUserPnlSnapshots` +
  `BulkInsertPnlSnapshots`),
* the sync orchestrator (`internal/polymarket`: `syncAll`, `syncUser`,
  `syncAddress`).

Prices, sizes and PnL values are modelled as rational numbers (`ℚ`) in
place of Go's `float64`; the claims under study concern the algorithmic
(FIFO matching / bookkeeping) structure of the code, not floating-point
rounding.  Timestamps are modelled as natural numbers (seconds since the
Unix epoch, matching `time.Unix(secs, 0)` used at ingestion); the Go
`Timestamp.Truncate(24 * time.Hour)` becomes truncation to a multiple of
86400 seconds.  Go maps keyed by `positionKey` are modelled as total
functions `PositionKey → List Lot` (a missing key and a key holding an
empty slice are indistinguishable in the Go code:
`inventory[key]` yields the empty slice for an absent key, and the
backfill's explicit `exists` check only guards an append to an empty
slice).  The `dailyPnl` Go map is modelled as an association list with
in-place update, which keeps its keys pairwise distinct.
-/

namespace Pyre

/-- A FIFO buy lot: `lot` in backfill.go / `fifoLot` in storage.  Both Go
structs carry a price per share and a share count. -/
structure Lot where
  price : ℚ
  size : ℚ
  deriving DecidableEq, Repr

/-- Model of `positionKey` from backfill.go (and the local `positionKey` inside
`CalculateRealizedPnlFromTrades`): a position is identified by
(condition id, outcome). -/
structure PositionKey where
  conditionID : String
  outcome : String
  deriving DecidableEq, Repr

/-- Model of `storage.Trade`, restricted to the fields the ledger passes read.
Pointer-typed Go fields (`*string`, `*float64`, `*time.Time`) become
`Option`s; `nil` is `none`. -/
structure Trade where
  timestamp : Option ℕ
  conditionID : Option String
  outcome : Option String
  side : Option String
  price : Option ℚ
  size : Option ℚ
  deriving DecidableEq, Repr

/-- A trade carrying every field required by the ledger passes
(timestamp, condition id, outcome, side, price, size all non-nil). -/
def Trade.complete (t : Trade) : Bool :=
  t.timestamp.isSome && t.conditionID.isSome && t.outcome.isSome &&
    t.side.isSome && t.price.isSome && t.size.isSome

/-- Model of `storage.PnlSnapshot`, restricted to the fields written by the
backfill: user id, timestamp, and the three optional PnL figures. -/
structure PnlSnapshot where
  userID : ℤ
  timestamp : ℕ
  totalPnl : Option ℚ
  realizedPnl : Option ℚ
  unrealizedPnl : Option ℚ
  deriving DecidableEq, Repr

/-- The per-account lot inventory: the Go `map[positionKey][]lot`
(`costBasis` in the backfill pass, `inventory` in the live pass). -/
def CostBasis : Type := PositionKey → List Lot

/-- The empty inventory (a fresh Go map). -/
def CostBasis.empty : CostBasis := fun _ => []

/-- Model of `timestamp.Truncate(24 * time.Hour)` on a seconds-since-epoch
timestamp: round down to a multiple of 86400. -/
def dayOf (ts : ℕ) : ℕ := ts - ts % 86400

/-! ## The backfill ledger pass (`calculateRealizedPnlFIFO`) -/

/-- The FIFO consumption loop of `calculateRealizedPnlFIFO`
(backfill.go lines 199–217): starting from `remaining` shares to sell,
pop lots from the head while shares remain.  Returns the realized PnL
accumulated by the loop, the lots left in the queue, and the unmatched
remainder.  A whole lot realizes `(sellPrice − lot.price) × lot.size`;
a partially consumed head lot realizes `(sellPrice − lot.price) ×
remaining` and stays in the queue with its size reduced. -/
def consumeLotsB (sellPrice : ℚ) : ℚ → List Lot → ℚ × List Lot × ℚ
  | remaining, [] => (0, [], remaining)
  | remaining, l :: rest =>
    if remaining ≤ 0 then (0, l :: rest, remaining)
    else if l.size ≤ remaining then
      let pnl := (sellPrice - l.price) * l.size
      let (r, lots, rem) := consumeLotsB sellPrice (remaining - l.size) rest
      (pnl + r, lots, rem)
    else
      ((sellPrice - l.price) * remaining,
        { price := l.price, size := l.size - remaining } :: rest, 0)

/-- Model of `calculateRealizedPnlFIFO` (backfill.go lines 188–228): realized PnL
of a sell of `sellSize` at `sellPrice` against the FIFO queue of `key`,
together with the updated cost-basis map.  With no recorded lots the
whole sale is treated as zero-cost-basis (`sellPrice * sellSize`,
map untouched); otherwise the loop runs and any remainder left when the
queue empties is added at zero cost basis. -/
def calculateRealizedPnlFIFO (costBasis : CostBasis) (key : PositionKey)
    (sellPrice sellSize : ℚ) : ℚ × CostBasis :=
  let lots := costBasis key
  if lots.isEmpty then (sellPrice * sellSize, costBasis)
  else
    let (r, lots', rem) := consumeLotsB sellPrice sellSize lots
    let realized := if 0 < rem then r + sellPrice * rem else r
    (realized, Function.update costBasis key lots')

/-- Update-or-insert into the `dailyPnl` association list (the Go map
write `dailyPnl[day] = cumulativeRealizedPnl`). -/
def setDaily (d : ℕ) (v : ℚ) : List (ℕ × ℚ) → List (ℕ × ℚ)
  | [] => [(d, v)]
  | (k, w) :: rest => if k = d then (k, v) :: rest else (k, w) :: setDaily d v rest

/-- Lookup in the `dailyPnl` association list. -/
def lookupDay (d : ℕ) : List (ℕ × ℚ) → Option ℚ
  | [] => none
  | (k, w) :: rest => if k = d then some w else lookupDay d rest

/-- The in-memory state threaded through `BackfillUser`'s trade loop
(backfill.go lines 86–139): FIFO cost basis per position, cumulative
realized PnL, the per-day cumulative-PnL map, and the observed trade
date range. -/
structure BackfillState where
  costBasis : CostBasis
  cumulativeRealizedPnl : ℚ
  dailyPnl : List (ℕ × ℚ)
  oldestDate : Option ℕ
  newestDate : Option ℕ

/-- Initial state of the backfill trade loop. -/
def backfillInit : BackfillState :=
  { costBasis := CostBasis.empty
    cumulativeRealizedPnl := 0
    dailyPnl := []
    oldestDate := none
    newestDate := none }

/-- Date-range update of backfill.go lines 116–118: replace the oldest
date when the trade's timestamp is strictly before it. -/
def oldestUpd (od : Option ℕ) (ts : ℕ) : Option ℕ :=
  match od with
  | none => some ts
  | some od => if ts < od then some ts else some od

/-- Date-range update of backfill.go lines 119–121: replace the newest
date when the trade's timestamp is strictly after it. -/
def newestUpd (nd : Option ℕ) (ts : ℕ) : Option ℕ :=
  match nd with
  | none => some ts
  | some nd => if nd < ts then some ts else some nd

/-- One iteration of `BackfillUser`'s trade loop (backfill.go lines
99–139).  A trade with any of the six required fields nil is skipped.
Otherwise the date range is updated, a BUY appends a lot to the key's
queue, and a SELL realizes PnL via `calculateRealizedPnlFIFO` and
records the new cumulative value under the trade's day. -/
def backfillStep (st : BackfillState) (t : Trade) : BackfillState :=
  match t.timestamp, t.conditionID, t.outcome, t.side, t.price, t.size with
  | some ts, some c, some o, some sd, some p, some sz =>
    let key : PositionKey := { conditionID := c, outcome := o }
    let day := dayOf ts
    let st :=
      { st with
        oldestDate := oldestUpd st.oldestDate ts
        newestDate := newestUpd st.newestDate ts }
    if sd = "BUY" then
      { st with
        costBasis :=
          Function.update st.costBasis key
            (st.costBasis key ++ [{ price := p, size := sz }]) }
    else if sd = "SELL" then
      let (realized, cb) := calculateRealizedPnlFIFO st.costBasis key p sz
      let cum := st.cumulativeRealizedPnl + realized
      { st with
        costBasis := cb
        cumulativeRealizedPnl := cum
        dailyPnl := setDaily day cum st.dailyPnl }
    else st
  | _, _, _, _, _, _ => st

/-- The backfill trade loop over a whole chronological trade list. -/
def backfillRun (trades : List Trade) : BackfillState :=
  trades.foldl backfillStep backfillInit

/-- Model of `createSnapshots` (backfill.go lines 231–248): one snapshot per
`dailyPnl` entry, with total = realized = the recorded cumulative value
and unrealized fixed at zero. -/
def createSnapshots (userID : ℤ) (dailyPnl : List (ℕ × ℚ)) : List PnlSnapshot :=
  dailyPnl.map fun dv =>
    { userID := userID
      timestamp := dv.1
      totalPnl := some dv.2
      realizedPnl := some dv.2
      unrealizedPnl := some 0 }

/-- Model of `backfill.Result`: counters and date range returned by
`BackfillUser`. -/
structure BackfillResult where
  tradesProcessed : ℕ
  snapshotsCreated : ℕ
  totalRealizedPnl : ℚ
  oldestTradeDate : Option ℕ
  newestTradeDate : Option ℕ
  deriving DecidableEq, Repr

/-- Model of `BackfillUser` (backfill.go lines 57–185), modelled over the
account's stored state: `userExists` is whether `GetUser` succeeds
(`none` result = error return), `trades` is the chronological trade
history, and `snapshotStore` is the account's persisted snapshot set.
With zero trades it returns a zero result before touching the snapshot
store.  Otherwise the existing snapshots are deleted, the ledger runs,
and the freshly created snapshots (sorted by timestamp) are bulk
inserted; the returned store is the new snapshot set.  This models the
run in which both storage writes succeed; `backfillReplace` below
models the failure cases of the replacement. -/
def BackfillUser (userExists : Bool) (userID : ℤ) (trades : List Trade)
    (snapshotStore : List PnlSnapshot) :
    Option (BackfillResult × List PnlSnapshot) :=
  if !userExists then none
  else if trades.length = 0 then
    some
      ({ tradesProcessed := 0
         snapshotsCreated := 0
         totalRealizedPnl := 0
         oldestTradeDate := none
         newestTradeDate := none }, snapshotStore)
  else
    let st := backfillRun trades
    let snapshots :=
      List.insertionSort (fun a b => a.timestamp ≤ b.timestamp)
        (createSnapshots userID st.dailyPnl)
    some
      ({ tradesProcessed := trades.length
         snapshotsCreated := snapshots.length
         totalRealizedPnl := st.cumulativeRealizedPnl
         oldestTradeDate := st.oldestDate
         newestTradeDate := st.newestDate }, snapshots)

/-! ## The live-stats ledger pass (`CalculateRealizedPnlFromTrades`) -/

/-- The FIFO matching loop inside `CalculateRealizedPnlFromTrades`
(storage, lines 1664–1698): pop lots while shares remain, realizing
`matched × price − matched × lot.Price` per consumption and counting
a win for each strictly positive contribution and a loss for each
strictly negative one.  Returns (realized, wins, losses, remaining
lots).  Unlike the backfill loop, the caller adds nothing for a
remainder left when the queue empties. -/
def consumeLotsL (sellPrice : ℚ) : ℚ → List Lot → ℚ × ℕ × ℕ × List Lot
  | remaining, [] => (0, 0, 0, [])
  | remaining, l :: rest =>
    if remaining ≤ 0 then (0, 0, 0, l :: rest)
    else if l.size ≤ remaining then
      let pnl := l.size * sellPrice - l.size * l.price
      let (r, w, lo, lots) := consumeLotsL sellPrice (remaining - l.size) rest
      (pnl + r, (if 0 < pnl then 1 else 0) + w, (if pnl < 0 then 1 else 0) + lo, lots)
    else
      let pnl := remaining * sellPrice - remaining * l.price
      (pnl, (if 0 < pnl then 1 else 0), (if pnl < 0 then 1 else 0),
        { price := l.price, size := l.size - remaining } :: rest)

/-- The state threaded through `CalculateRealizedPnlFromTrades`'s trade
loop: FIFO inventory per position plus realized PnL and win/loss
counters. -/
structure LiveState where
  inventory : CostBasis
  realizedPnl : ℚ
  wins : ℕ
  losses : ℕ

/-- Initial state of the live-stats trade loop. -/
def liveInit : LiveState :=
  { inventory := CostBasis.empty, realizedPnl := 0, wins := 0, losses := 0 }

/-- One iteration of `CalculateRealizedPnlFromTrades`'s trade loop
(storage, lines 1637–1700).  A trade with a nil condition id, outcome,
side, price or size is skipped — the timestamp is *not* checked here.
A BUY appends a lot; a SELL runs the FIFO matching loop and writes the
surviving lots back. -/
def liveStep (st : LiveState) (t : Trade) : LiveState :=
  match t.conditionID, t.outcome, t.side, t.price, t.size with
  | some c, some o, some sd, some p, some sz =>
    let key : PositionKey := { conditionID := c, outcome := o }
    if sd = "BUY" then
      { st with
        inventory :=
          Function.update st.inventory key
            (st.inventory key ++ [{ price := p, size := sz }]) }
    else if sd = "SELL" then
      let (r, w, lo, lots) := consumeLotsL p sz (st.inventory key)
      { inventory := Function.update st.inventory key lots
        realizedPnl := st.realizedPnl + r
        wins := st.wins + w
        losses := st.losses + lo }
    else st
  | _, _, _, _, _ => st

/-- The live-stats trade loop over a whole chronological trade list. -/
def liveRun (trades : List Trade) : LiveState :=
  trades.foldl liveStep liveInit

/-- Model of `CalculateRealizedPnlFromTrades` (storage, lines 1619–1704):
returns (realizedPnl, wins, totalClosed) where totalClosed =
wins + losses. -/
def CalculateRealizedPnlFromTrades (trades : List Trade) : ℚ × ℕ × ℕ :=
  let st := liveRun trades
  (st.realizedPnl, st.wins, st.wins + st.losses)

/-! ## Aggregate stats (`GetUserStats`) -/

/-- Model of `storage.Position`, restricted to the fields the claims read: the
upsert conflict key (address, condition id, asset) and the
upstream-supplied unrealized PnL (`*float64`, hence optional). -/
structure Position where
  address : String
  conditionID : String
  asset : String
  unrealizedPnl : Option ℚ
  deriving DecidableEq, Repr

/-- Model of `COALESCE(SUM(unrealized_pnl), 0)` over an account's stored
positions: sum of the non-null unrealized PnL values. -/
def unrealizedSum (positions : List Position) : ℚ :=
  (positions.filterMap Position.unrealizedPnl).sum

/-- The PnL fields computed by `GetUserStats` (storage, lines 819–896),
as (totalPnl, realizedPnl, unrealizedPnl): with a non-null official
lifetime PnL, totalPnl is the official figure and realizedPnl is
derived as totalPnl − unrealizedPnl; otherwise realizedPnl is the
FIFO-derived value from `CalculateRealizedPnlFromTrades` and totalPnl =
realizedPnl + unrealizedPnl. -/
def GetUserStats (officialPnl : Option ℚ) (positions : List Position)
    (trades : List Trade) : ℚ × ℚ × ℚ :=
  let unrealized := unrealizedSum positions
  match officialPnl with
  | some official => (official, official - unrealized, unrealized)
  | none =>
    let realized := (CalculateRealizedPnlFromTrades trades).1
    (realized + unrealized, realized, unrealized)

/-! ## Snapshot replacement (`DeleteUserPnlSnapshots` +
`BulkInsertPnlSnapshots`) -/

/-- Model of `DeleteUserPnlSnapshots` (storage, lines 957–963) as an atomic
storage operation that may fail: on success the account's snapshot set
is emptied, on failure it is untouched. -/
def DeleteUserPnlSnapshots (ok : Bool) (store : List PnlSnapshot) :
    Except Unit (List PnlSnapshot) :=
  if ok then .ok [] else .error ()

/-- Model of `BulkInsertPnlSnapshots` (storage, lines 966–1000): the inserts run
inside one transaction, so on failure the rollback leaves the store as
it was; on success all snapshots are appended. -/
def BulkInsertPnlSnapshots (ok : Bool) (snapshots store : List PnlSnapshot) :
    Except Unit (List PnlSnapshot) :=
  if ok then .ok (store ++ snapshots) else .error ()

/-- The snapshot-replacement sequence performed by `BackfillUser`
(backfill.go line 82 deletes, line 164 bulk-inserts; the two are
separate storage calls, each returning an error that aborts the
backfill).  Returns the final stored snapshot set and whether the
replacement completed. -/
def backfillReplace (deleteOk insertOk : Bool) (snapshots store : List PnlSnapshot) :
    List PnlSnapshot × Bool :=
  match DeleteUserPnlSnapshots deleteOk store with
  | .error _ => (store, false)
  | .ok store1 =>
    match BulkInsertPnlSnapshots insertOk snapshots store1 with
    | .error _ => (store1, false)
    | .ok store2 => (store2, true)

/-! ## Sync orchestrator (`syncAll`, `syncUser`, `syncAddress`) -/

/-- Model of `syncAll` (polymarket service, lines 131–144): iterate the
configured accounts, calling the per-account sync for each; a failure
is logged and the loop continues with the next account.  The result
records, per account in iteration order, whether its sync succeeded;
`syncAll` itself always returns nil. -/
def syncAll (syncOne : String → List String → Except String Unit) :
    List (String × List String) → List (String × Bool)
  | [] => []
  | (u, addrs) :: rest =>
    match syncOne u addrs with
    | .ok _ => (u, true) :: syncAll syncOne rest
    | .error _ => (u, false) :: syncAll syncOne rest

/-- Outcome of a per-account sync as a Bool (ok = true). -/
def syncOutcome : Except String Unit → Bool
  | .ok _ => true
  | .error _ => false

/-- Model of `UpsertPosition` (storage, lines 512–542): SQLite
`ON CONFLICT(user_id, address, condition_id, asset) DO UPDATE` — within
one account's rows, replace the row with the same (address, condition
id, asset) key, or append a new row. -/
def UpsertPosition (p : Position) : List Position → List Position
  | [] => [p]
  | q :: rest =>
    if q.address = p.address ∧ q.conditionID = p.conditionID ∧ q.asset = p.asset then
      p :: rest
    else q :: UpsertPosition p rest

/-- Observable storage/upstream events of one account's sync, used to
state the ordering of the position delete relative to the upstream
fetches. -/
inductive SyncEvent where
  | deletePositions
  | fetchPositions (address : String)
  | insertSnapshot (unrealized : ℚ)
  deriving DecidableEq, Repr

/-- Model of `syncAddress` (polymarket service, lines 240–348), restricted to
its effect on the account's position rows: fetch the address's
positions from upstream (`none` = fetch failure, which returns an error
without touching the store) and upsert each into the account's rows. -/
def syncAddress (fetch : String → Option (List Position)) (address : String)
    (store : List Position) : List Position × Bool :=
  match fetch address with
  | none => (store, false)
  | some ps => (ps.foldl (fun acc p => UpsertPosition p acc) store, true)

/-- One iteration of `syncUser`'s address loop (polymarket service,
lines 207–218): run `syncAddress` for the address — a failure leaves
the position rows untouched and is skipped — and record the fetch
attempt in the event trace. -/
def syncFold (fetch : String → Option (List Position))
    (acc : List Position × List SyncEvent) (a : String) :
    List Position × List SyncEvent :=
  ((syncAddress fetch a acc.1).1, acc.2 ++ [SyncEvent.fetchPositions a])

/-- Model of `syncUser` (polymarket service, lines 199–227), restricted to its
effect on the account's position rows and the end-of-cycle PnL
snapshot's unrealized component: delete all stored positions, then for
each address run `syncAddress` (a failed address is logged and
skipped), then take a snapshot whose unrealized PnL is
`COALESCE(SUM(unrealized_pnl), 0)` over the rows now stored (the value
`GetUserStats` computes and `takePnlSnapshot` persists).  Returns the
final position rows, the snapshot's unrealized PnL, and the event
trace.  The profile/official-PnL updates and trade ingestion earlier in
`syncUser` do not touch position rows and are omitted. -/
def syncUser (fetch : String → Option (List Position)) (addresses : List String)
    (store : List Position) : List Position × ℚ × List SyncEvent :=
  let cleared : List Position := []
  let (final, fetchEvents) := addresses.foldl (syncFold fetch) (cleared, [])
  let unrealized := unrealizedSum final
  (final, unrealized,
    SyncEvent.deletePositions :: fetchEvents ++ [SyncEvent.insertSnapshot unrealized])

/-! ## Derived notions used to state the claims -/

/-- Total share count held in a lot queue. -/
def lotsTotalSize (lots : List Lot) : ℚ := (lots.map Lot.size).sum

/-- The zero-cost-basis remainder value of one sell against a lot
queue: the part of the sale the backfill pass books at zero cost basis
(`sellPrice × uncovered remainder`) and the live-stats pass books not
at all.  Zero when the queue covers the whole sale. -/
def sellExtra (sellPrice sellSize : ℚ) (lots : List Lot) : ℚ :=
  if lots.isEmpty then sellPrice * sellSize
  else
    let rem := (consumeLotsB sellPrice sellSize lots).2.2
    if 0 < rem then sellPrice * rem else 0

/-- Ghost pass accumulating the zero-cost-basis remainder values of the
sells of a trade sequence, following the live pass's skip rule and
inventory updates. -/
def extraStep (st : CostBasis × ℚ) (t : Trade) : CostBasis × ℚ :=
  match t.conditionID, t.outcome, t.side, t.price, t.size with
  | some c, some o, some sd, some p, some sz =>
    let key : PositionKey := { conditionID := c, outcome := o }
    if sd = "BUY" then
      (Function.update st.1 key (st.1 key ++ [{ price := p, size := sz }]), st.2)
    else if sd = "SELL" then
      (Function.update st.1 key (consumeLotsL p sz (st.1 key)).2.2.2,
        st.2 + sellExtra p sz (st.1 key))
    else st
  | _, _, _, _, _ => st

/-- Sum of the zero-cost-basis remainder values over a trade
sequence. -/
def remainderSum (trades : List Trade) : ℚ :=
  (trades.foldl extraStep (CostBasis.empty, 0)).2

/-- The relation maintained between the backfill pass, the live pass
and the ghost remainder pass while replaying one trade sequence. -/
def PassInv (bSt : BackfillState) (lSt : LiveState) (eSt : CostBasis × ℚ) : Prop :=
  bSt.costBasis = lSt.inventory ∧ lSt.inventory = eSt.1 ∧
    bSt.cumulativeRealizedPnl = lSt.realizedPnl + eSt.2

/-- The trade is a SELL whose (truncated) trade day is `d`. -/
def Trade.SellOn (t : Trade) (d : ℕ) : Prop :=
  t.side = some "SELL" ∧ ∃ ts, t.timestamp = some ts ∧ dayOf ts = d

/-- Zero-cost-basis property of one sell of size `S` at price `P`
against the queue of `key` (the situation of claim C1, where the queue
is exhausted): the backfill routine realizes the per-lot consumptions
plus `P × remainder` (so `P × S` when there were no lots at all), ends
with an empty queue, while the live loop realizes only the per-lot
consumptions — nothing for the remainder. -/
def ZeroCostRemainderSpec (cb : CostBasis) (key : PositionKey) (P S : ℚ) : Prop :=
  (calculateRealizedPnlFIFO cb key P S).1
      = ((cb key).map fun l => (P - l.price) * l.size).sum
        + P * (S - lotsTotalSize (cb key))
  ∧ (calculateRealizedPnlFIFO cb key P S).2 key = []
  ∧ (consumeLotsL P S (cb key)).1
      = ((cb key).map fun l => (P - l.price) * l.size).sum
  ∧ (consumeLotsL P S (cb key)).2.2.2 = []

/-- Daily-snapshot property of the backfill's output snapshot set for a
trade history (claim C5): at most one snapshot per day; a day carries a
snapshot exactly when a SELL trade happened on it; every snapshot has
unrealized PnL zero and total equal to realized; and every snapshot's
realized PnL is the cumulative realized PnL right after the last SELL
of its day. -/
def DailySnapshotSpec (trades : List Trade) (snaps : List PnlSnapshot) : Prop :=
  (snaps.map PnlSnapshot.timestamp).Nodup ∧
  (∀ d, (∃ s ∈ snaps, s.timestamp = d) ↔ ∃ t ∈ trades, t.SellOn d) ∧
  (∀ s ∈ snaps, s.unrealizedPnl = some 0 ∧ s.totalPnl = s.realizedPnl) ∧
  (∀ s ∈ snaps, ∃ pre t post,
      trades = pre ++ t :: post ∧ t.SellOn s.timestamp ∧
      (∀ u ∈ post, ¬ u.SellOn s.timestamp) ∧
      s.realizedPnl = some (backfillRun (pre ++ [t])).cumulativeRealizedPnl)

/-- Outcome of one account sync when every upstream position fetch
failed (claim C10): the position store ends empty and the end-of-cycle
snapshot's unrealized PnL is zero. -/
def EmptiedSyncSpec (fetch : String → Option (List Position))
    (addresses : List String) (store : List Position) : Prop :=
  (syncUser fetch addresses store).1 = [] ∧
  (syncUser fetch addresses store).2.1 = 0

/-- An upstream client whose position fetch fails for every address. -/
def fetchNone : String → Option (List Position) := fun _ => none

/-- A cost-basis map holding, under every key, one lot of 2 shares at
price 0.25. -/
def cbSingle : CostBasis := fun _ => [{ price := 1/4, size := 2 }]

/-- A sample stored position row with unrealized PnL 5. -/
def posSample : Position :=
  { address := "a", conditionID := "c", asset := "x", unrealizedPnl := some 5 }

/-- A trade missing one of the six fields the backfill pass requires. -/
def Trade.MissingB (t : Trade) : Prop :=
  t.timestamp = none ∨ t.conditionID = none ∨ t.outcome = none ∨
    t.side = none ∨ t.price = none ∨ t.size = none

/-- A trade missing one of the five fields the live-stats pass checks
(the timestamp is not among them). -/
def Trade.MissingL (t : Trade) : Prop :=
  t.conditionID = none ∨ t.outcome = none ∨ t.side = none ∨
    t.price = none ∨ t.size = none

/-! ## Concrete sample data used by counterexamples and witnesses -/

/-- Sample position key. -/
def keyCO : PositionKey := { conditionID := "c", outcome := "o" }

/-- Scenario of §8 of the spec: buy 10 shares at 0.40. -/
def tradeBuy040 : Trade :=
  { timestamp := some 0, conditionID := some "c", outcome := some "o"
    side := some "BUY", price := some (2/5), size := some 10 }

/-- Scenario of §8 of the spec: buy 5 shares at 0.60. -/
def tradeBuy060 : Trade :=
  { timestamp := some 10, conditionID := some "c", outcome := some "o"
    side := some "BUY", price := some (3/5), size := some 5 }

/-- Scenario of §8 of the spec: sell 12 shares at 0.70. -/
def tradeSell070 : Trade :=
  { timestamp := some 20, conditionID := some "c", outcome := some "o"
    side := some "SELL", price := some (7/10), size := some 12 }

/-- A sell of 1 share at 0.50 with no prior buy (no recorded cost
basis). -/
def tradeBareSell : Trade :=
  { timestamp := some 0, conditionID := some "c", outcome := some "o"
    side := some "SELL", price := some (1/2), size := some 1 }

/-- A buy of 1 share at price 0 whose timestamp is nil and whose other
fields are all present. -/
def tradeNoTsBuy : Trade :=
  { timestamp := none, conditionID := some "c", outcome := some "o"
    side := some "BUY", price := some 0, size := some 1 }

/-- A sell of 1 share at 0.50 on day 0, all fields present. -/
def tradeSell050 : Trade :=
  { timestamp := some 5, conditionID := some "c", outcome := some "o"
    side := some "SELL", price := some (1/2), size := some 1 }

/-- A SELL of 1 share at 0.50 on day 0 whose outcome is nil and whose
other fields are all present. -/
def tradeSellNoOutcome : Trade :=
  { timestamp := some 3, conditionID := some "c", outcome := none
    side := some "SELL", price := some (1/2), size := some 1 }

/-- Sample stored snapshot (prior history). -/
def snapOld : PnlSnapshot :=
  { userID := 1, timestamp := 0, totalPnl := some 7
    realizedPnl := some 7, unrealizedPnl := some 0 }

/-- Sample freshly computed snapshot. -/
def snapNew : PnlSnapshot :=
  { userID := 1, timestamp := 86400, totalPnl := some 3
    realizedPnl := some 3, unrealizedPnl := some 0 }

/-! ## Helper lemmas on the FIFO loops -/

/-- The backfill and live FIFO loops agree on the realized PnL booked
by the loop itself and on the surviving lot queue; they differ only in
win/loss counting and in the zero-cost-basis remainder, which neither
loop books. -/
theorem consumeLots_agree (P : ℚ) (S : ℚ) (lots : List Lot) :
    (consumeLotsB P S lots).1 = (consumeLotsL P S lots).1 ∧
    (consumeLotsB P S lots).2.1 = (consumeLotsL P S lots).2.2.2 := by
  induction lots generalizing S with
  | nil => simp [consumeLotsB, consumeLotsL]
  | cons l rest ih =>
    by_cases h0 : S ≤ 0
    · simp [consumeLotsB, consumeLotsL, h0]
    · by_cases hsz : l.size ≤ S
      · have ih' := ih (S - l.size)
        rcases hB : consumeLotsB P (S - l.size) rest with ⟨rB, lotsB, remB⟩
        rcases hL : consumeLotsL P (S - l.size) rest with ⟨rL, wL, loL, lotsL⟩
        rw [hB, hL] at ih'
        simp only [consumeLotsB, consumeLotsL, if_neg h0, if_pos hsz, hB, hL]
        refine ⟨?_, by simpa using ih'.2⟩
        have h1 : rB = rL := by simpa using ih'.1
        rw [h1]; ring_nf
      · simp only [consumeLotsB, consumeLotsL, if_neg h0, if_neg hsz]
        exact ⟨by ring, trivial⟩

/-- A queue of positive-size lots has nonnegative total size. -/
theorem lotsTotalSize_nonneg (lots : List Lot) (h : ∀ l ∈ lots, 0 < l.size) :
    0 ≤ lotsTotalSize lots := by
  refine List.sum_nonneg ?_
  intro x hx
  rcases List.mem_map.mp hx with ⟨l, hl, rfl⟩
  exact (h l hl).le

/-- When the sale is at least as large as the whole queue (all lot
sizes positive), the backfill FIFO loop consumes every lot, realizing
`(P − lotPrice) × lotSize` per lot, and leaves remainder
`S − totalSize`. -/
theorem consumeLotsB_exhaust (P : ℚ) (lots : List Lot) :
    ∀ S : ℚ, (∀ l ∈ lots, 0 < l.size) → lotsTotalSize lots ≤ S →
      consumeLotsB P S lots
        = ((lots.map fun l => (P - l.price) * l.size).sum, [],
            S - lotsTotalSize lots) := by
  induction lots with
  | nil => intro S _ _; simp [consumeLotsB, lotsTotalSize]
  | cons l rest ih =>
    intro S hpos htot
    have hl : 0 < l.size := hpos l (List.mem_cons_self _ _)
    have hrest : ∀ x ∈ rest, 0 < x.size := fun x hx => hpos x (List.mem_cons_of_mem _ hx)
    have hrest0 : 0 ≤ lotsTotalSize rest := lotsTotalSize_nonneg rest hrest
    have hcons : lotsTotalSize (l :: rest) = l.size + lotsTotalSize rest := by
      simp [lotsTotalSize]
    rw [hcons] at htot
    have h0 : ¬ S ≤ 0 := by push_neg; linarith
    have hsz : l.size ≤ S := by linarith
    have htot' : lotsTotalSize rest ≤ S - l.size := by linarith
    simp only [consumeLotsB, if_neg h0, if_pos hsz, ih (S - l.size) hrest htot']
    simp only [List.map_cons, List.sum_cons, hcons, Prod.mk.injEq]
    exact ⟨trivial, trivial, by ring⟩

/-- Equation for `backfillStep` on a fully populated BUY trade. -/
theorem backfillStep_buy (st : BackfillState) (ts : ℕ) (c o : String) (p sz : ℚ) :
    backfillStep st
        { timestamp := some ts, conditionID := some c, outcome := some o
          side := some "BUY", price := some p, size := some sz }
      = { costBasis :=
            Function.update st.costBasis { conditionID := c, outcome := o }
              (st.costBasis { conditionID := c, outcome := o }
                ++ [{ price := p, size := sz }])
          cumulativeRealizedPnl := st.cumulativeRealizedPnl
          dailyPnl := st.dailyPnl
          oldestDate := oldestUpd st.oldestDate ts
          newestDate := newestUpd st.newestDate ts } := rfl

/-- Equation for `backfillStep` on a fully populated SELL trade. -/
theorem backfillStep_sell (st : BackfillState) (ts : ℕ) (c o : String) (p sz : ℚ) :
    backfillStep st
        { timestamp := some ts, conditionID := some c, outcome := some o
          side := some "SELL", price := some p, size := some sz }
      = { costBasis :=
            (calculateRealizedPnlFIFO st.costBasis
              { conditionID := c, outcome := o } p sz).2
          cumulativeRealizedPnl := st.cumulativeRealizedPnl
              + (calculateRealizedPnlFIFO st.costBasis
                  { conditionID := c, outcome := o } p sz).1
          dailyPnl := setDaily (dayOf ts)
              (st.cumulativeRealizedPnl
                + (calculateRealizedPnlFIFO st.costBasis
                    { conditionID := c, outcome := o } p sz).1)
              st.dailyPnl
          oldestDate := oldestUpd st.oldestDate ts
          newestDate := newestUpd st.newestDate ts } := rfl

/-- Equation for `backfillStep` on a fully populated trade whose side
is neither BUY nor SELL: only the date range changes. -/
theorem backfillStep_other (st : BackfillState) (ts : ℕ) (c o sd : String)
    (p sz : ℚ) (hb : sd ≠ "BUY") (hs : sd ≠ "SELL") :
    backfillStep st
        { timestamp := some ts, conditionID := some c, outcome := some o
          side := some sd, price := some p, size := some sz }
      = { st with
          oldestDate := oldestUpd st.oldestDate ts
          newestDate := newestUpd st.newestDate ts } := by
  simp only [backfillStep, if_neg hb, if_neg hs]

/-- Equation for `liveStep` on a BUY trade (any timestamp). -/
theorem liveStep_buy (st : LiveState) (ots : Option ℕ) (c o : String) (p sz : ℚ) :
    liveStep st
        { timestamp := ots, conditionID := some c, outcome := some o
          side := some "BUY", price := some p, size := some sz }
      = { st with
          inventory :=
            Function.update st.inventory { conditionID := c, outcome := o }
              (st.inventory { conditionID := c, outcome := o }
                ++ [{ price := p, size := sz }]) } := rfl

/-- Equation for `liveStep` on a SELL trade (any timestamp). -/
theorem liveStep_sell (st : LiveState) (ots : Option ℕ) (c o : String) (p sz : ℚ) :
    liveStep st
        { timestamp := ots, conditionID := some c, outcome := some o
          side := some "SELL", price := some p, size := some sz }
      = { inventory :=
            Function.update st.inventory { conditionID := c, outcome := o }
              (consumeLotsL p sz
                (st.inventory { conditionID := c, outcome := o })).2.2.2
          realizedPnl := st.realizedPnl
              + (consumeLotsL p sz (st.inventory { conditionID := c, outcome := o })).1
          wins := st.wins
              + (consumeLotsL p sz (st.inventory { conditionID := c, outcome := o })).2.1
          losses := st.losses
              + (consumeLotsL p sz
                  (st.inventory { conditionID := c, outcome := o })).2.2.1 } := rfl

/-- Equation for `extraStep` on a BUY trade. -/
theorem extraStep_buy (st : CostBasis × ℚ) (ots : Option ℕ) (c o : String)
    (p sz : ℚ) :
    extraStep st
        { timestamp := ots, conditionID := some c, outcome := some o
          side := some "BUY", price := some p, size := some sz }
      = (Function.update st.1 { conditionID := c, outcome := o }
            (st.1 { conditionID := c, outcome := o } ++ [{ price := p, size := sz }]),
          st.2) := rfl

/-- Equation for `extraStep` on a SELL trade. -/
theorem extraStep_sell (st : CostBasis × ℚ) (ots : Option ℕ) (c o : String)
    (p sz : ℚ) :
    extraStep st
        { timestamp := ots, conditionID := some c, outcome := some o
          side := some "SELL", price := some p, size := some sz }
      = (Function.update st.1 { conditionID := c, outcome := o }
            (consumeLotsL p sz (st.1 { conditionID := c, outcome := o })).2.2.2,
          st.2 + sellExtra p sz (st.1 { conditionID := c, outcome := o })) := rfl

/-- Per-sell decomposition: the backfill's sell routine books the live
loop's realized PnL plus the zero-cost-basis remainder value, and both
routines leave the same inventory behind. -/
theorem calculateRealizedPnlFIFO_decomp (cb : CostBasis) (key : PositionKey)
    (P S : ℚ) :
    (calculateRealizedPnlFIFO cb key P S).1
        = (consumeLotsL P S (cb key)).1 + sellExtra P S (cb key) ∧
    (calculateRealizedPnlFIFO cb key P S).2
        = Function.update cb key (consumeLotsL P S (cb key)).2.2.2 := by
  by_cases hemp : (cb key).isEmpty
  · have hnil : cb key = [] := List.isEmpty_iff.mp hemp
    constructor
    · simp [calculateRealizedPnlFIFO, sellExtra, hemp, hnil, consumeLotsL]
    · simp only [calculateRealizedPnlFIFO]
      rw [if_pos hemp]
      simp only [hnil, consumeLotsL]
      rw [← hnil, Function.update_eq_self]
  · have h := consumeLots_agree P S (cb key)
    rcases hB : consumeLotsB P S (cb key) with ⟨rB, lotsB, remB⟩
    rcases hL : consumeLotsL P S (cb key) with ⟨rL, wL, loL, lotsL⟩
    rw [hB, hL] at h
    simp only at h
    constructor
    · simp only [calculateRealizedPnlFIFO, sellExtra, hemp, Bool.false_eq_true,
        if_false, hB, hL]
      by_cases hrem : 0 < remB <;> simp [hrem, h.1]
    · simp only [calculateRealizedPnlFIFO, hemp, Bool.false_eq_true, if_false,
        hB, hL]
      rw [h.2]

/-- One complete trade preserves `PassInv`. -/
theorem passInv_step (bSt : BackfillState) (lSt : LiveState) (eSt : CostBasis × ℚ)
    (hinv : PassInv bSt lSt eSt) (t : Trade) (hc : t.complete = true) :
    PassInv (backfillStep bSt t) (liveStep lSt t) (extraStep eSt t) := by
  obtain ⟨h1, h2, h3⟩ := hinv
  rcases t with ⟨ots, oc, oo, osd, op, osz⟩
  cases ots with
  | none => simp [Trade.complete] at hc
  | some ts =>
  cases oc with
  | none => simp [Trade.complete] at hc
  | some c =>
  cases oo with
  | none => simp [Trade.complete] at hc
  | some o =>
  cases osd with
  | none => simp [Trade.complete] at hc
  | some sd =>
  cases op with
  | none => simp [Trade.complete] at hc
  | some p =>
  cases osz with
  | none => simp [Trade.complete] at hc
  | some sz =>
  by_cases hbuy : sd = "BUY"
  · refine ⟨?_, ?_, ?_⟩ <;>
      simp [backfillStep, liveStep, extraStep, hbuy, h1, h2, h3]
  · by_cases hsell : sd = "SELL"
    · subst hsell
      have hd := calculateRealizedPnlFIFO_decomp bSt.costBasis
        { conditionID := c, outcome := o } p sz
      refine ⟨?_, ?_, ?_⟩
      · simp only [backfillStep_sell, liveStep_sell]
        rw [hd.2, h1]
      · simp only [liveStep_sell, extraStep_sell]
        rw [h2]
      · simp only [backfillStep_sell, liveStep_sell, extraStep_sell]
        rw [hd.1, h1, ← h2, h3]
        ring
    · refine ⟨?_, ?_, ?_⟩ <;>
        simp [backfillStep, liveStep, extraStep, hbuy, hsell, h1, h2, h3]

/-- Folding a complete trade sequence preserves `PassInv`. -/
theorem passInv_foldl (trades : List Trade) :
    (∀ t ∈ trades, t.complete = true) →
    ∀ bSt lSt eSt, PassInv bSt lSt eSt →
      PassInv (trades.foldl backfillStep bSt) (trades.foldl liveStep lSt)
        (trades.foldl extraStep eSt) := by
  induction trades with
  | nil => intro _ bSt lSt eSt hinv; simpa using hinv
  | cons t rest ih =>
    intro h bSt lSt eSt hinv
    have ht : t.complete = true := h t (List.mem_cons_self _ _)
    have hrest : ∀ u ∈ rest, u.complete = true :=
      fun u hu => h u (List.mem_cons_of_mem _ hu)
    simpa using ih hrest _ _ _ (passInv_step bSt lSt eSt hinv t ht)

/-! ## Association-list lemmas for the daily-PnL map -/

/-- Writing day `d` makes it readable with the written value. -/
theorem lookupDay_setDaily_self (d : ℕ) (v : ℚ) (l : List (ℕ × ℚ)) :
    lookupDay d (setDaily d v l) = some v := by
  induction l with
  | nil => simp [setDaily, lookupDay]
  | cons kv rest ih =>
    rcases kv with ⟨k, w⟩
    by_cases hk : k = d
    · simp [setDaily, lookupDay, hk]
    · simp [setDaily, lookupDay, hk, ih]

/-- Writing day `d` leaves every other day's value unchanged. -/
theorem lookupDay_setDaily_ne (d e : ℕ) (v : ℚ) (l : List (ℕ × ℚ)) (h : e ≠ d) :
    lookupDay e (setDaily d v l) = lookupDay e l := by
  induction l with
  | nil => simp [setDaily, lookupDay, Ne.symm h]
  | cons kv rest ih =>
    rcases kv with ⟨k, w⟩
    by_cases hk : k = d
    · subst hk
      simp [setDaily, lookupDay, Ne.symm h]
    · simp [setDaily, lookupDay, hk, ih]

/-- Key membership after a write: the written key plus the old keys. -/
theorem mem_keys_setDaily (d e : ℕ) (v : ℚ) (l : List (ℕ × ℚ)) :
    e ∈ (setDaily d v l).map Prod.fst ↔ e = d ∨ e ∈ l.map Prod.fst := by
  induction l with
  | nil => simp [setDaily]
  | cons kv rest ih =>
    rcases kv with ⟨k, w⟩
    by_cases hk : k = d
    · subst hk
      simp [setDaily]
    · simp [setDaily, hk, ih]
      tauto

/-- Writes preserve distinctness of the keys. -/
theorem nodup_keys_setDaily (d : ℕ) (v : ℚ) (l : List (ℕ × ℚ))
    (h : (l.map Prod.fst).Nodup) : ((setDaily d v l).map Prod.fst).Nodup := by
  induction l with
  | nil => simp [setDaily]
  | cons kv rest ih =>
    rcases kv with ⟨k, w⟩
    rw [List.map_cons] at h
    rcases List.nodup_cons.mp h with ⟨hk, hrest⟩
    by_cases hkd : k = d
    · subst hkd
      simp only [setDaily, if_pos rfl, List.map_cons]
      exact List.nodup_cons.mpr ⟨hk, hrest⟩
    · have := ih hrest
      simp only [setDaily, if_neg hkd, List.map_cons, List.nodup_cons]
      refine ⟨?_, this⟩
      rw [mem_keys_setDaily]
      push_neg
      exact ⟨hkd, hk⟩

/-- A successful lookup exhibits a stored pair. -/
theorem mem_of_lookupDay (d : ℕ) (v : ℚ) (l : List (ℕ × ℚ))
    (h : lookupDay d l = some v) : (d, v) ∈ l := by
  induction l with
  | nil => simp [lookupDay] at h
  | cons kv rest ih =>
    rcases kv with ⟨k, w⟩
    by_cases hk : k = d
    · subst hk
      simp [lookupDay] at h
      simp [h]
    · simp only [lookupDay, if_neg hk] at h
      exact List.mem_cons_of_mem _ (ih h)

/-- With distinct keys, a stored pair is what lookup returns. -/
theorem lookupDay_of_mem (d : ℕ) (v : ℚ) (l : List (ℕ × ℚ))
    (hnd : (l.map Prod.fst).Nodup) (h : (d, v) ∈ l) :
    lookupDay d l = some v := by
  induction l with
  | nil => simp at h
  | cons kv rest ih =>
    rcases kv with ⟨k, w⟩
    rw [List.map_cons] at hnd
    rcases List.nodup_cons.mp hnd with ⟨hk, hrest⟩
    rcases List.mem_cons.mp h with h1 | h1
    · have h2 : k = d ∧ w = v := by
        have := congrArg Prod.fst h1.symm
        have := congrArg Prod.snd h1.symm
        exact ⟨by simpa using congrArg Prod.fst h1.symm,
          by simpa using congrArg Prod.snd h1.symm⟩
      simp [lookupDay, h2.1, h2.2]
    · have hkd : k ≠ d := by
        intro hkd
        subst hkd
        exact hk (List.mem_map.mpr ⟨(k, v), h1, rfl⟩)
      simp only [lookupDay, if_neg hkd]
      exact ih hrest h1

/-- A key is present exactly when lookup succeeds. -/
theorem mem_keys_iff_lookupDay (d : ℕ) (l : List (ℕ × ℚ)) :
    d ∈ l.map Prod.fst ↔ ∃ v, lookupDay d l = some v := by
  induction l with
  | nil => simp [lookupDay]
  | cons kv rest ih =>
    rcases kv with ⟨k, w⟩
    by_cases hk : k = d
    · subst hk
      simp [lookupDay]
    · rw [List.map_cons, List.mem_cons]
      simp only [lookupDay, if_neg hk]
      constructor
      · rintro (h1 | h1)
        · exact absurd h1.symm hk
        · exact ih.mp h1
      · intro hy
        exact Or.inr (ih.mpr hy)

/-! ## Skip behaviour of the two passes -/

/-- A trade missing any of the six fields the backfill pass requires is
a no-op for the backfill pass. -/
theorem backfillStep_missing (st : BackfillState) (t : Trade)
    (h : t.MissingB) : backfillStep st t = st := by
  rcases t with ⟨ots, oc, oo, osd, op, osz⟩
  cases ots with
  | none => rfl
  | some ts =>
  cases oc with
  | none => rfl
  | some c =>
  cases oo with
  | none => rfl
  | some o =>
  cases osd with
  | none => rfl
  | some sd =>
  cases op with
  | none => rfl
  | some p =>
  cases osz with
  | none => rfl
  | some sz =>
  simp [Trade.MissingB] at h

/-- A trade missing any of the five fields the live pass checks is a
no-op for the live pass. -/
theorem liveStep_missing (st : LiveState) (t : Trade)
    (h : t.MissingL) : liveStep st t = st := by
  rcases t with ⟨ots, oc, oo, osd, op, osz⟩
  cases oc with
  | none => rfl
  | some c =>
  cases oo with
  | none => rfl
  | some o =>
  cases osd with
  | none => rfl
  | some sd =>
  cases op with
  | none => rfl
  | some p =>
  cases osz with
  | none => rfl
  | some sz =>
  simp [Trade.MissingL] at h

/-- A complete trade has all six fields populated. -/
theorem Trade.exists_of_complete {t : Trade} (h : t.complete = true) :
    ∃ ts c o sd p sz,
      t = { timestamp := some ts, conditionID := some c, outcome := some o
            side := some sd, price := some p, size := some sz } := by
  rcases t with ⟨ots, oc, oo, osd, op, osz⟩
  cases ots with
  | none => simp [Trade.complete] at h
  | some ts =>
  cases oc with
  | none => simp [Trade.complete] at h
  | some c =>
  cases oo with
  | none => simp [Trade.complete] at h
  | some o =>
  cases osd with
  | none => simp [Trade.complete] at h
  | some sd =>
  cases op with
  | none => simp [Trade.complete] at h
  | some p =>
  cases osz with
  | none => simp [Trade.complete] at h
  | some sz =>
  exact ⟨ts, c, o, sd, p, sz, rfl⟩

/-! ## Daily-PnL behaviour of the backfill pass -/

/-- One backfill step either leaves the daily-PnL map unchanged (any
trade that is not a complete SELL) or writes the new cumulative
realized PnL under the trade's day. -/
theorem backfillStep_dailyPnl_spec (st : BackfillState) (t : Trade) :
    (¬ (t.complete = true ∧ t.side = some "SELL") ∧
        (backfillStep st t).dailyPnl = st.dailyPnl) ∨
    (∃ ts, t.complete = true ∧ t.side = some "SELL" ∧ t.timestamp = some ts ∧
        (backfillStep st t).dailyPnl
          = setDaily (dayOf ts) ((backfillStep st t).cumulativeRealizedPnl)
              st.dailyPnl) := by
  rcases t with ⟨ots, oc, oo, osd, op, osz⟩
  cases ots with
  | none => exact Or.inl ⟨by simp [Trade.complete], rfl⟩
  | some ts =>
  cases oc with
  | none => exact Or.inl ⟨by simp [Trade.complete], rfl⟩
  | some c =>
  cases oo with
  | none => exact Or.inl ⟨by simp [Trade.complete], rfl⟩
  | some o =>
  cases osd with
  | none => exact Or.inl ⟨by simp [Trade.complete], rfl⟩
  | some sd =>
  cases op with
  | none => exact Or.inl ⟨by simp [Trade.complete], rfl⟩
  | some p =>
  cases osz with
  | none => exact Or.inl ⟨by simp [Trade.complete], rfl⟩
  | some sz =>
  by_cases hs : sd = "SELL"
  · subst hs
    refine Or.inr ⟨ts, by simp [Trade.complete], rfl, rfl, ?_⟩
    rw [backfillStep_sell]
  · refine Or.inl ⟨?_, ?_⟩
    · intro hcontra
      exact hs (by simpa using hcontra.2)
    · by_cases hb : sd = "BUY"
      · subst hb
        rw [backfillStep_buy]
      · rw [backfillStep_other st ts c o sd p sz hb hs]

/-- Folding the backfill pass keeps the day keys pairwise distinct. -/
theorem backfill_foldl_nodup (trades : List Trade) :
    ∀ st : BackfillState, (st.dailyPnl.map Prod.fst).Nodup →
      (((trades.foldl backfillStep st).dailyPnl).map Prod.fst).Nodup := by
  induction trades with
  | nil => intro st h; simpa using h
  | cons t rest ih =>
    intro st h
    rw [List.foldl_cons]
    refine ih _ ?_
    rcases backfillStep_dailyPnl_spec st t with ⟨_, heq⟩ | ⟨ts, _, _, _, heq⟩
    · rw [heq]; exact h
    · rw [heq]; exact nodup_keys_setDaily _ _ _ h

/-- A day key is present after folding the backfill pass exactly when
it was present before or some complete SELL trade of that day was
replayed. -/
theorem backfill_foldl_keys (trades : List Trade) :
    ∀ (st : BackfillState) (d : ℕ),
      d ∈ ((trades.foldl backfillStep st).dailyPnl).map Prod.fst ↔
        d ∈ st.dailyPnl.map Prod.fst ∨
          ∃ t ∈ trades, t.complete = true ∧ t.SellOn d := by
  induction trades with
  | nil => intro st d; simp
  | cons t rest ih =>
    intro st d
    rw [List.foldl_cons, ih]
    rcases backfillStep_dailyPnl_spec st t with ⟨hns, heq⟩ | ⟨ts, hcomp, hside, hts, heq⟩
    · rw [heq]
      constructor
      · rintro (h1 | ⟨u, hu, h2⟩)
        · exact Or.inl h1
        · exact Or.inr ⟨u, List.mem_cons_of_mem _ hu, h2⟩
      · rintro (h1 | ⟨u, hu, h2⟩)
        · exact Or.inl h1
        · rcases List.mem_cons.mp hu with rfl | hu
          · exact absurd ⟨h2.1, h2.2.1⟩ hns
          · exact Or.inr ⟨u, hu, h2⟩
    · rw [heq]
      constructor
      · rintro (h1 | ⟨u, hu, h2⟩)
        · rw [mem_keys_setDaily] at h1
          rcases h1 with rfl | h1
          · exact Or.inr ⟨t, List.mem_cons_self _ _, hcomp, hside, ts, hts, rfl⟩
          · exact Or.inl h1
        · exact Or.inr ⟨u, List.mem_cons_of_mem _ hu, h2⟩
      · rintro (h1 | ⟨u, hu, h2⟩)
        · refine Or.inl ?_
          rw [mem_keys_setDaily]
          exact Or.inr h1
        · rcases List.mem_cons.mp hu with rfl | hu
          · refine Or.inl ?_
            rw [mem_keys_setDaily]
            rcases h2.2.2 with ⟨ts', hts', hday⟩
            rw [hts] at hts'
            rcases Option.some.injEq .. ▸ hts' with rfl
            exact Or.inl hday.symm
          · exact Or.inr ⟨u, hu, h2⟩

/-- Appending one trade to a backfill run applies one more step. -/
theorem backfillRun_append_singleton (rest : List Trade) (t : Trade) :
    backfillRun (rest ++ [t]) = backfillStep (backfillRun rest) t := by
  simp only [backfillRun, List.foldl_append, List.foldl_cons, List.foldl_nil]

/-- A value stored in the daily-PnL map after a full backfill run is
the cumulative realized PnL right after the last complete SELL of that
day. -/
theorem backfill_value_split (trades : List Trade) :
    ∀ d v, lookupDay d (backfillRun trades).dailyPnl = some v →
      ∃ pre t post, trades = pre ++ t :: post ∧ t.complete = true ∧ t.SellOn d ∧
        (∀ u ∈ post, ¬ (u.complete = true ∧ u.SellOn d)) ∧
        v = (backfillRun (pre ++ [t])).cumulativeRealizedPnl := by
  induction trades using List.reverseRecOn with
  | nil => intro d v h; simp [backfillRun, backfillInit, lookupDay] at h
  | append_singleton rest t ih =>
    intro d v h
    rw [backfillRun_append_singleton] at h
    rcases backfillStep_dailyPnl_spec (backfillRun rest) t with
      ⟨hns, heq⟩ | ⟨ts, hcomp, hside, hts, heq⟩
    · rw [heq] at h
      rcases ih d v h with ⟨pre, u, post, hsplit, hu1, hu2, hu3, hu4⟩
      refine ⟨pre, u, post ++ [t], ?_, hu1, hu2, ?_, hu4⟩
      · rw [hsplit]
        simp
      · intro w hw
        rcases List.mem_append.mp hw with hw | hw
        · exact hu3 w hw
        · rw [List.mem_singleton] at hw
          subst hw
          intro hc
          exact hns ⟨hc.1, hc.2.1⟩
    · rw [heq] at h
      by_cases hd : d = dayOf ts
      · subst hd
        rw [lookupDay_setDaily_self] at h
        refine ⟨rest, t, [], rfl, hcomp, ⟨hside, ts, hts, rfl⟩, by simp, ?_⟩
        have hv : (backfillStep (backfillRun rest) t).cumulativeRealizedPnl = v :=
          Option.some.injEq .. ▸ h
        rw [← hv, backfillRun_append_singleton]
      · rw [lookupDay_setDaily_ne _ _ _ _ hd] at h
        rcases ih d v h with ⟨pre, u, post, hsplit, hu1, hu2, hu3, hu4⟩
        refine ⟨pre, u, post ++ [t], ?_, hu1, hu2, ?_, hu4⟩
        · rw [hsplit]
          simp
        · intro w hw
          rcases List.mem_append.mp hw with hw | hw
          · exact hu3 w hw
          · rw [List.mem_singleton] at hw
            subst hw
            intro hc
            rcases hc.2.2 with ⟨ts', hts', hday⟩
            rw [hts] at hts'
            rcases Option.some.injEq .. ▸ hts' with rfl
            exact hd hday.symm

/-- Unfolding of `BackfillUser` for an existing account with a
non-empty trade history. -/
theorem BackfillUser_nonempty (userID : ℤ) (trades : List Trade)
    (store : List PnlSnapshot) (hlen : ¬ trades.length = 0) :
    BackfillUser true userID trades store
      = some
          ({ tradesProcessed := trades.length
             snapshotsCreated :=
               (List.insertionSort (fun a b => a.timestamp ≤ b.timestamp)
                 (createSnapshots userID (backfillRun trades).dailyPnl)).length
             totalRealizedPnl := (backfillRun trades).cumulativeRealizedPnl
             oldestTradeDate := (backfillRun trades).oldestDate
             newestTradeDate := (backfillRun trades).newestDate },
            List.insertionSort (fun a b => a.timestamp ≤ b.timestamp)
              (createSnapshots userID (backfillRun trades).dailyPnl)) := by
  simp only [BackfillUser, Bool.not_true, Bool.false_eq_true, if_false,
    if_neg hlen]

/-! ## Claim theorems -/

/-- C3: replaying BUY 10 at 0.40, BUY 5 at 0.60, SELL 12 at 0.70
through the ledger realizes exactly 3.20 = 16/5, leaves exactly one
open lot of 3 shares still priced 0.60 (the partially consumed lot
keeps its price and is not removed), and counts 2 wins and 0 losses
(one increment per consumed lot with strictly positive contribution). -/
theorem claim_C3_example_scenario :
    (liveRun [tradeBuy040, tradeBuy060, tradeSell070]).realizedPnl = 16/5 ∧
    (liveRun [tradeBuy040, tradeBuy060, tradeSell070]).inventory keyCO
        = [{ price := 3/5, size := 3 }] ∧
    (liveRun [tradeBuy040, tradeBuy060, tradeSell070]).wins = 2 ∧
    (liveRun [tradeBuy040, tradeBuy060, tradeSell070]).losses = 0 ∧
    CalculateRealizedPnlFromTrades [tradeBuy040, tradeBuy060, tradeSell070]
        = (16/5, 2, 2) := by
  norm_num [liveRun, liveStep, consumeLotsL, liveInit, CostBasis.empty,
    Function.update, CalculateRealizedPnlFromTrades, keyCO,
    tradeBuy040, tradeBuy060, tradeSell070,
    show ("SELL" : String) ≠ "BUY" from by decide]

/-- C4: with a non-null official lifetime PnL, `GetUserStats` reports
totalPnl equal to the official value and realizedPnl equal to
totalPnl − unrealizedPnl, independent of the trade history the FIFO
computation would use; with a null official PnL it reports the
FIFO-derived realized PnL and totalPnl = realizedPnl + unrealizedPnl. -/
theorem claim_C4_official_pnl_precedence :
    ∀ (official : ℚ) (positions : List Position) (trades trades' : List Trade),
      (GetUserStats (some official) positions trades).1 = official ∧
      (GetUserStats (some official) positions trades).2.1
          = official - unrealizedSum positions ∧
      GetUserStats (some official) positions trades
          = GetUserStats (some official) positions trades' ∧
      (GetUserStats none positions trades).2.1
          = (CalculateRealizedPnlFromTrades trades).1 ∧
      (GetUserStats none positions trades).1
          = (CalculateRealizedPnlFromTrades trades).1 + unrealizedSum positions := by
  intro official positions trades trades'
  exact ⟨rfl, rfl, rfl, rfl, rfl⟩

/-- C6 counterexample: with one stored snapshot, a successful delete of
the old history followed by a failing bulk insert reports a failure yet
leaves the account's snapshot store different from the previously
stored history (it is now empty) — the replacement is not a single
atomic transaction. -/
theorem claim_C6_counterexample :
    (backfillReplace true false [snapNew] [snapOld]).2 = false ∧
    (backfillReplace true false [snapNew] [snapOld]).1 ≠ [snapOld] := by
  constructor
  · rfl
  · have h1 : (backfillReplace true false [snapNew] [snapOld]).1 = [] := rfl
    rw [h1]
    exact (List.cons_ne_nil snapOld []).symm

/-- C6 amended: the bulk insert alone is atomic (on failure the store
is exactly what the delete left), but the preceding delete commits
separately and first: a failed delete preserves the old history; a
successful delete followed by a failed insert leaves zero snapshots
rather than the previous history; only when both operations succeed
does the new set replace the old. -/
theorem claim_C6_amended (deleteOk insertOk : Bool)
    (snapshots store : List PnlSnapshot) :
    backfillReplace deleteOk insertOk snapshots store
      = (if deleteOk then (if insertOk then snapshots else []) else store,
          deleteOk && insertOk) := by
  cases deleteOk <;> cases insertOk <;>
    simp [backfillReplace, DeleteUserPnlSnapshots, BulkInsertPnlSnapshots]

/-- C8: the sync cycle invokes the per-account sync for every
configured account, in order, whatever the outcomes of the other
accounts are: the result records, per account, exactly that account's
own outcome, and the cycle reaches every account. -/
theorem claim_C8_partial_failure_isolation
    (syncOne : String → List String → Except String Unit)
    (users : List (String × List String)) :
    syncAll syncOne users
        = users.map (fun ua => (ua.1, syncOutcome (syncOne ua.1 ua.2))) ∧
    (syncAll syncOne users).map Prod.fst = users.map Prod.fst := by
  have h1 : syncAll syncOne users
      = users.map (fun ua => (ua.1, syncOutcome (syncOne ua.1 ua.2))) := by
    induction users with
    | nil => rfl
    | cons ua rest ih =>
      rcases ua with ⟨u, addrs⟩
      cases h : syncOne u addrs <;> simp [syncAll, h, syncOutcome, ih]
  refine ⟨h1, ?_⟩
  rw [h1, List.map_map]
  rfl

/-- C9: an existing account with zero stored trades gets a zero-valued
result (0 trades, 0 snapshots, 0 realized PnL, no date range) with no
error, and the account's stored snapshot history is left exactly as it
was — the delete-and-replace of snapshots is not performed. -/
theorem claim_C9_zero_trades_frame (userID : ℤ) (store : List PnlSnapshot) :
    BackfillUser true userID [] store
      = some
          ({ tradesProcessed := 0, snapshotsCreated := 0, totalRealizedPnl := 0,
             oldestTradeDate := none, newestTradeDate := none }, store) := rfl

/-- C7 counterexample: a BUY missing only its timestamp is not skipped
by the live-stats pass — its lot enters the inventory and changes the
realized PnL of a later SELL from 0 to 0.5, so a trade missing a
required field (the timestamp) does contribute to realized PnL and lot
inventory in that pass. -/
theorem claim_C7_counterexample :
    tradeNoTsBuy.timestamp = none ∧
    (liveRun [tradeNoTsBuy, tradeSell050]).realizedPnl = 1/2 ∧
    (liveRun [tradeSell050]).realizedPnl = 0 ∧
    ((1 : ℚ)/2) ≠ 0 := by
  refine ⟨rfl, ?_, ?_, by norm_num⟩
  · norm_num [liveRun, liveStep, consumeLotsL, liveInit, CostBasis.empty,
      Function.update, tradeNoTsBuy, tradeSell050,
      show ("SELL" : String) ≠ "BUY" from by decide]
  · norm_num [liveRun, liveStep, consumeLotsL, liveInit, CostBasis.empty,
      Function.update, tradeSell050,
      show ("SELL" : String) ≠ "BUY" from by decide]

/-- C7 amended: the backfill pass skips any trade missing one of its
six required fields (timestamp, condition id, outcome, side, price,
size) — such a trade leaves its state untouched; the live-stats pass
skips any trade missing condition id, outcome, side, price or size,
but does not check the timestamp.  Both passes are total functions, so
a malformed trade never makes either pass fail. -/
theorem claim_C7_amended :
    (∀ (st : BackfillState) (t : Trade), t.MissingB → backfillStep st t = st) ∧
    (∀ (st : LiveState) (t : Trade), t.MissingL → liveStep st t = st) :=
  ⟨backfillStep_missing, liveStep_missing⟩

/-- Witness for the amended C7 at a concrete state and trades. -/
theorem claim_C7_amended_witness :
    tradeNoTsBuy.MissingB ∧
    backfillStep backfillInit tradeNoTsBuy = backfillInit ∧
    ({ tradeNoTsBuy with conditionID := none } : Trade).MissingL ∧
    liveStep liveInit { tradeNoTsBuy with conditionID := none } = liveInit :=
  ⟨Or.inl rfl, claim_C7_amended.1 backfillInit tradeNoTsBuy (Or.inl rfl),
    Or.inl rfl, claim_C7_amended.2 liveInit _ (Or.inl rfl)⟩

/-- C10: during one account's sync, the stored positions are deleted
before any upstream fetch is attempted (the event trace starts with the
delete), and when the position fetch fails for every address nothing is
re-inserted: the cycle ends with zero stored positions — whatever was
stored before — and the end-of-cycle snapshot's unrealized PnL is
computed from that emptied set, i.e. it is zero. -/
theorem claim_C10_positions_emptied (fetch : String → Option (List Position))
    (addresses : List String) (store : List Position)
    (hfail : ∀ a ∈ addresses, fetch a = none) :
    ((syncUser fetch addresses store).2.2).head?
        = some SyncEvent.deletePositions ∧
    EmptiedSyncSpec fetch addresses store := by
  have hfold : ∀ (addrs : List String) (acc : List Position × List SyncEvent),
      (∀ a ∈ addrs, fetch a = none) →
      (addrs.foldl (syncFold fetch) acc).1 = acc.1 := by
    intro addrs
    induction addrs with
    | nil => intro acc _; rfl
    | cons a rest ih =>
      intro acc hall
      rw [List.foldl_cons]
      have ha : fetch a = none := hall a (List.mem_cons_self _ _)
      have hrest : ∀ x ∈ rest, fetch x = none :=
        fun x hx => hall x (List.mem_cons_of_mem _ hx)
      rw [ih _ hrest]
      simp [syncFold, syncAddress, ha]
  have hfinal : (addresses.foldl (syncFold fetch) ([], [])).1 = [] :=
    hfold addresses ([], []) hfail
  refine ⟨rfl, ?_, ?_⟩
  · show (addresses.foldl (syncFold fetch) ([], [])).1 = []
    exact hfinal
  · show unrealizedSum (addresses.foldl (syncFold fetch) ([], [])).1 = 0
    rw [hfinal]
    rfl

/-- Witness for C10 at a concrete address list and stored position. -/
theorem claim_C10_positions_emptied_witness :
    (∀ a ∈ ["a"], fetchNone a = none) ∧
    ((syncUser fetchNone ["a"] [posSample]).2.2).head?
        = some SyncEvent.deletePositions ∧
    EmptiedSyncSpec fetchNone ["a"] [posSample] := by
  have h := claim_C10_positions_emptied fetchNone ["a"] [posSample]
    (fun a _ => rfl)
  exact ⟨fun a _ => rfl, h.1, h.2⟩

/-- C1 counterexample: on a single SELL of 1 share at 0.5 with no
recorded lots, the FIFO queue is empty while S = 1 > 0, so by the claim
*both* ledger passes should accrue P × S = 0.5; the backfill pass does,
but the live-stats pass accrues 0 — it books nothing for the
zero-cost-basis remainder. -/
theorem claim_C1_counterexample :
    (backfillRun [tradeBareSell]).cumulativeRealizedPnl = 1/2 ∧
    (CalculateRealizedPnlFromTrades [tradeBareSell]).1 = 0 ∧
    ((1 : ℚ)/2) * 1 ≠ 0 := by
  refine ⟨?_, ?_, by norm_num⟩
  · norm_num [backfillRun, backfillStep, calculateRealizedPnlFIFO, consumeLotsB,
      backfillInit, CostBasis.empty, Function.update, tradeBareSell, setDaily,
      dayOf, oldestUpd, newestUpd,
      show ("SELL" : String) ≠ "BUY" from by decide]
  · norm_num [CalculateRealizedPnlFromTrades, liveRun, liveStep, consumeLotsL,
      liveInit, CostBasis.empty, Function.update, tradeBareSell,
      show ("SELL" : String) ≠ "BUY" from by decide]

/-- C1 amended: when a sell of size S at price P meets a FIFO queue it
exhausts (total lot size ≤ S, lot sizes positive), the *backfill*
routine `calculateRealizedPnlFIFO` realizes the sum over consumed lots
of (P − lotPrice) × lotSize plus P × (S − totalSize) for the untracked
remainder (in particular P × S when no lots were recorded), emptying
the queue; the *live-stats* FIFO loop realizes only the per-lot sum and
accrues nothing for the remainder. -/
theorem claim_C1_amended (cb : CostBasis) (key : PositionKey) (P S : ℚ)
    (hpos : ∀ l ∈ cb key, 0 < l.size) (htot : lotsTotalSize (cb key) ≤ S) :
    ZeroCostRemainderSpec cb key P S := by
  by_cases hemp : (cb key).isEmpty
  · have hnil : cb key = [] := List.isEmpty_iff.mp hemp
    refine ⟨?_, ?_, ?_, ?_⟩
    · rw [calculateRealizedPnlFIFO]
      rw [if_pos hemp]
      simp [hnil, lotsTotalSize]
    · rw [calculateRealizedPnlFIFO]
      rw [if_pos hemp]
      exact hnil
    · simp [hnil, consumeLotsL]
    · simp [hnil, consumeLotsL]
  · have hexh := consumeLotsB_exhaust P (cb key) S hpos htot
    have hag := consumeLots_agree P S (cb key)
    have h0 : 0 ≤ S - lotsTotalSize (cb key) := sub_nonneg.mpr htot
    refine ⟨?_, ?_, ?_, ?_⟩
    · simp only [calculateRealizedPnlFIFO, hemp, Bool.false_eq_true, if_false,
        hexh]
      rcases h0.lt_or_eq with hlt | heq0
      · rw [if_pos hlt]
      · rw [if_neg (by rw [← heq0]; exact lt_irrefl 0), ← heq0, mul_zero,
          add_zero]
    · simp only [calculateRealizedPnlFIFO, hemp, Bool.false_eq_true, if_false,
        hexh]
      simp [Function.update_same]
    · rw [← hag.1, hexh]
    · rw [← hag.2, hexh]

/-- Witness for the amended C1: one lot of 2 shares at 0.25, selling
3 shares at price 1 — the queue empties with remainder 1. -/
theorem claim_C1_amended_witness :
    (∀ l ∈ cbSingle keyCO, 0 < l.size) ∧
    lotsTotalSize (cbSingle keyCO) ≤ 3 ∧
    ZeroCostRemainderSpec cbSingle keyCO 1 3 := by
  have h1 : ∀ l ∈ cbSingle keyCO, 0 < l.size := by
    intro l hl
    rcases List.mem_singleton.mp hl with rfl
    norm_num
  have h2 : lotsTotalSize (cbSingle keyCO) ≤ 3 := by
    norm_num [lotsTotalSize, cbSingle]
  exact ⟨h1, h2, claim_C1_amended cbSingle keyCO 1 3 h1 h2⟩

/-- C2 counterexample: on the single bare SELL, the backfill ledger
pass reports cumulative realized PnL 0.5 (zero-cost-basis remainder)
while the live-stats pass reports 0 — the two implementations are not
extensionally equal on realized PnL. -/
theorem claim_C2_counterexample :
    (BackfillUser true 1 [tradeBareSell] []).map
        (fun r => r.1.totalRealizedPnl) = some (1/2) ∧
    (CalculateRealizedPnlFromTrades [tradeBareSell]).1 = 0 ∧
    ¬ ((1 : ℚ)/2 = 0) := by
  refine ⟨?_, ?_, by norm_num⟩
  · norm_num [BackfillUser, backfillRun, backfillStep, calculateRealizedPnlFIFO,
      consumeLotsB, backfillInit, CostBasis.empty, Function.update,
      tradeBareSell, setDaily, dayOf, oldestUpd, newestUpd, createSnapshots,
      show ("SELL" : String) ≠ "BUY" from by decide]
  · norm_num [CalculateRealizedPnlFromTrades, liveRun, liveStep, consumeLotsL,
      liveInit, CostBasis.empty, Function.update, tradeBareSell,
      show ("SELL" : String) ≠ "BUY" from by decide]

/-- C2 amended: on a trade sequence whose trades carry all required
fields, the backfill pass's cumulative realized PnL equals the
live-stats pass's realized PnL *plus* the sum of the zero-cost-basis
remainder values of its sells; hence the two passes agree exactly when
no sell exceeds the recorded inventory, and `BackfillUser`'s reported
total realized PnL likewise equals the live value plus the remainder
sum. -/
theorem claim_C2_amended (trades : List Trade)
    (h : ∀ t ∈ trades, t.complete = true) :
    (backfillRun trades).cumulativeRealizedPnl
        = (CalculateRealizedPnlFromTrades trades).1 + remainderSum trades ∧
    (remainderSum trades = 0 →
        (backfillRun trades).cumulativeRealizedPnl
          = (CalculateRealizedPnlFromTrades trades).1) ∧
    ∀ (userID : ℤ) (store : List PnlSnapshot) (res : BackfillResult)
        (snaps : List PnlSnapshot),
      BackfillUser true userID trades store = some (res, snaps) →
        res.totalRealizedPnl
          = (CalculateRealizedPnlFromTrades trades).1 + remainderSum trades := by
  have hmain : (backfillRun trades).cumulativeRealizedPnl
      = (CalculateRealizedPnlFromTrades trades).1 + remainderSum trades := by
    have hinv := passInv_foldl trades h backfillInit liveInit
      (CostBasis.empty, 0) ⟨rfl, rfl, by norm_num [backfillInit, liveInit]⟩
    exact hinv.2.2
  refine ⟨hmain, fun hz => by rw [hmain, hz, add_zero], ?_⟩
  intro userID store res snaps hbu
  by_cases hlen : trades.length = 0
  · have hnil : trades = [] := List.length_eq_zero.mp hlen
    subst hnil
    have hz : BackfillUser true userID ([] : List Trade) store
        = some
            ({ tradesProcessed := 0, snapshotsCreated := 0, totalRealizedPnl := 0,
               oldestTradeDate := none, newestTradeDate := none }, store) := rfl
    rw [hz] at hbu
    have heq := congrArg Prod.fst (Option.some.inj hbu)
    simp only at heq
    rw [← heq]
    norm_num [CalculateRealizedPnlFromTrades, liveRun, liveInit, remainderSum]
  · rw [BackfillUser_nonempty userID trades store hlen] at hbu
    have heq := congrArg Prod.fst (Option.some.inj hbu)
    simp only at heq
    have hres : res.totalRealizedPnl
        = (backfillRun trades).cumulativeRealizedPnl := by
      rw [← heq]
    rw [hres, hmain]

/-- Witness for the amended C2: a complete BUY followed by a complete
oversized SELL. -/
theorem claim_C2_amended_witness :
    (∀ t ∈ [tradeBuy040, tradeSell070], t.complete = true) ∧
    (backfillRun [tradeBuy040, tradeSell070]).cumulativeRealizedPnl
        = (CalculateRealizedPnlFromTrades [tradeBuy040, tradeSell070]).1
          + remainderSum [tradeBuy040, tradeSell070] := by
  have hc : ∀ t ∈ [tradeBuy040, tradeSell070], t.complete = true := by decide
  exact ⟨hc, (claim_C2_amended [tradeBuy040, tradeSell070] hc).1⟩

/-- C5 counterexample: a non-empty trade history consisting of one SELL
that occurred on day 0 but carries a nil outcome (a nullable column of
the trades table).  The backfill pass skips it, so `BackfillUser`
succeeds with zero snapshots: a SELL day with no snapshot, refuting the
unrestricted claim that every day with at least one SELL trade gets a
snapshot. -/
theorem claim_C5_counterexample :
    ([tradeSellNoOutcome] : List Trade) ≠ [] ∧
    tradeSellNoOutcome.SellOn 0 ∧
    BackfillUser true 1 [tradeSellNoOutcome] []
      = some
          ({ tradesProcessed := 1, snapshotsCreated := 0, totalRealizedPnl := 0,
             oldestTradeDate := none, newestTradeDate := none }, []) ∧
    ¬ DailySnapshotSpec [tradeSellNoOutcome] [] := by
  have hsell : tradeSellNoOutcome.SellOn 0 := ⟨rfl, 3, rfl, rfl⟩
  refine ⟨by simp, hsell, rfl, ?_⟩
  intro h
  rcases h with ⟨_, hiff, _⟩
  have := (hiff 0).mpr ⟨tradeSellNoOutcome, List.mem_singleton_self _, hsell⟩
  simp at this

/-- C5 amended: for a non-empty chronological trade history whose
trades carry all required fields, `BackfillUser` succeeds and produces
exactly one snapshot per calendar day on which a SELL occurred (none
for buy-only days); each snapshot has unrealized PnL exactly zero,
total PnL equal to realized PnL, and realized PnL equal to the
cumulative realized PnL as of the last SELL of its day.  (A SELL
missing a required field is skipped by the ledger pass and contributes
no snapshot, which is why the restriction is needed.) -/
theorem claim_C5_daily_snapshots (userID : ℤ) (trades : List Trade)
    (store : List PnlSnapshot) (hne : trades ≠ [])
    (hc : ∀ t ∈ trades, t.complete = true) :
    ∃ res snaps, BackfillUser true userID trades store = some (res, snaps) ∧
      res.snapshotsCreated = snaps.length ∧
      DailySnapshotSpec trades snaps := by
  have hlen : ¬ trades.length = 0 := by
    simpa [List.length_eq_zero] using hne
  have hperm :
      List.Perm
        (List.insertionSort (fun a b => a.timestamp ≤ b.timestamp)
          (createSnapshots userID (backfillRun trades).dailyPnl))
        (createSnapshots userID (backfillRun trades).dailyPnl) :=
    List.perm_insertionSort _ _
  have hmapts :
      (createSnapshots userID (backfillRun trades).dailyPnl).map
          PnlSnapshot.timestamp
        = (backfillRun trades).dailyPnl.map Prod.fst := by
    simp only [createSnapshots, List.map_map]
    rfl
  have hnodupkeys : ((backfillRun trades).dailyPnl.map Prod.fst).Nodup :=
    backfill_foldl_nodup trades backfillInit (by simp [backfillInit])
  refine ⟨_, _, BackfillUser_nonempty userID trades store hlen, rfl,
    ?_, ?_, ?_, ?_⟩
  · have hp2 := hperm.map PnlSnapshot.timestamp
    rw [List.Perm.nodup_iff hp2, hmapts]
    exact hnodupkeys
  · intro d
    have hmem :
        ∀ e, e ∈ (List.insertionSort (fun a b => a.timestamp ≤ b.timestamp)
            (createSnapshots userID (backfillRun trades).dailyPnl)).map
              PnlSnapshot.timestamp
          ↔ e ∈ (backfillRun trades).dailyPnl.map Prod.fst := by
      intro e
      rw [(hperm.map PnlSnapshot.timestamp).mem_iff, hmapts]
    constructor
    · rintro ⟨s, hs, rfl⟩
      have hkey : s.timestamp ∈ (backfillRun trades).dailyPnl.map Prod.fst :=
        (hmem s.timestamp).mp (List.mem_map_of_mem _ hs)
      have := (backfill_foldl_keys trades backfillInit s.timestamp).mp hkey
      rcases this with h1 | ⟨t, ht, _, hsell⟩
      · simp [backfillInit] at h1
      · exact ⟨t, ht, hsell⟩
    · rintro ⟨t, ht, hsell⟩
      have hkey : d ∈ (backfillRun trades).dailyPnl.map Prod.fst :=
        (backfill_foldl_keys trades backfillInit d).mpr
          (Or.inr ⟨t, ht, hc t ht, hsell⟩)
      rcases List.mem_map.mp ((hmem d).mpr hkey) with ⟨s, hs, hts⟩
      exact ⟨s, hs, hts⟩
  · intro s hs
    have hs' : s ∈ createSnapshots userID (backfillRun trades).dailyPnl :=
      hperm.mem_iff.mp hs
    rcases List.mem_map.mp hs' with ⟨dv, hdv, rfl⟩
    exact ⟨rfl, rfl⟩
  · intro s hs
    have hs' : s ∈ createSnapshots userID (backfillRun trades).dailyPnl :=
      hperm.mem_iff.mp hs
    rcases List.mem_map.mp hs' with ⟨dv, hdv, rfl⟩
    have hlook : lookupDay dv.1 (backfillRun trades).dailyPnl = some dv.2 :=
      lookupDay_of_mem dv.1 dv.2 _ hnodupkeys hdv
    rcases backfill_value_split trades dv.1 dv.2 hlook with
      ⟨pre, t, post, hsplit, hcomp, hsell, hpost, hval⟩
    refine ⟨pre, t, post, hsplit, hsell, ?_, ?_⟩
    · intro u hu hsellu
      have hu_trades : u ∈ trades := by
        rw [hsplit]
        exact List.mem_append_right _ (List.mem_cons_of_mem _ hu)
      exact (hpost u hu) ⟨hc u hu_trades, hsellu⟩
    · rw [hval]

/-- Witness for C5 at a single complete SELL trade. -/
theorem claim_C5_daily_snapshots_witness :
    (([tradeSell050] : List Trade) ≠ [] ∧
      ∀ t ∈ [tradeSell050], t.complete = true) ∧
    ∃ res snaps, BackfillUser true 1 [tradeSell050] [] = some (res, snaps) ∧
      res.snapshotsCreated = snaps.length ∧
      DailySnapshotSpec [tradeSell050] snaps := by
  have h1 : ([tradeSell050] : List Trade) ≠ [] := by simp
  have h2 : ∀ t ∈ [tradeSell050], t.complete = true := by decide
  exact ⟨⟨h1, h2⟩, claim_C5_daily_snapshots 1 [tradeSell050] [] h1 h2⟩

end Pyre
